import Mathlib

/-!
Verification of the opencode-webhooks event-to-delivery pipeline.

This file embeds the core of the repository in Lean: the retrying webhook
client (`src/webhook-client.ts`), the dispatcher (`src/index.ts` and the
batch-aware plugin in the second half of `src/types.ts`), the per-destination
rate limiter (`src/batch-handler.ts`) and the agent-completion middleware
(`src/middleware.ts`).  Stateful code is modelled by explicit state passing;
the HTTP transport and the thrown exceptions of user-supplied callbacks are
modelled by oracles (`Except` valued functions); `Date.now()` readings are
explicit `Nat` parameters of each transition.
-/

namespace OpencodeWebhooks

/-! ## Data model (src/types.ts) -/

/-- Rate limit configuration of one destination (`WebhookConfig.rateLimit`). -/
structure RateLimit where
  maxRequests : Nat
  windowMs : Nat
deriving DecidableEq, Repr

/-- Retry policy of one destination (`WebhookConfig.retry`). -/
structure RetryPolicy where
  maxAttempts : Option Nat := none
  delayMs : Option Nat := none
deriving DecidableEq, Repr

/-- One destination configuration (`WebhookConfig` in src/types.ts).  The
payload type is abstract (`α`); `transformPayload` shapes the wire body only
and is irrelevant to the claims, so it is not carried here. -/
structure WebhookConfig (α : Type) where
  url : String
  events : List String := []
  shouldSend : Option (α → Bool) := none
  retry : Option RetryPolicy := none
  timeoutMs : Option Nat := none
  rateLimit : Option RateLimit := none

/-- Delivery result (`WebhookResult` in src/types.ts). -/
structure WebhookResult where
  success : Bool
  webhookUrl : String
  statusCode : Option Nat := none
  error : Option String := none
  attempts : Nat
  rateLimitDelayed : Option Bool := none
deriving DecidableEq, Repr

/-- JavaScript `s || dflt` on an optional string: `undefined` and the empty
string are falsy and select the default. -/
def jsOrElse (s : Option String) (dflt : String) : String :=
  match s with
  | none => dflt
  | some v => if v = "" then dflt else v

/-! ## Webhook client (src/webhook-client.ts)

One HTTP attempt (`sendOnce`) either resolves with a status code or throws an
error message; we model the transport by an oracle `outcome : Nat → Except
String Nat` mapping the attempt number to the attempt's fate.  On resolution
`sendOnce` builds `{success: true, webhookUrl, statusCode, attempts: 1}`.
The retry loop of `send` is embedded with the remaining attempt budget
(`maxAttempts - attempts`) as structural fuel. -/

/-- Everything observable about one `WebhookClient.send` call: the returned
result, the attempt numbers actually performed, and the backoff delays awaited
between consecutive attempts. -/
structure SendTrace where
  result : WebhookResult
  performedAttempts : List Nat
  delays : List Nat
deriving DecidableEq, Repr

/-- The `while (attempts < maxAttempts)` loop of `WebhookClient.send`.
`remaining` is `maxAttempts - attempts`; the two move in lockstep. -/
def sendLoop (url : String) (outcome : Nat → Except String Nat) (delayMs : Nat) :
    Nat → Nat → Option String → SendTrace
  | 0, attempts, lastError =>
    { result := { success := false, webhookUrl := url,
                  error := some (jsOrElse lastError "Unknown error"), attempts := attempts },
      performedAttempts := [], delays := [] }
  | remaining + 1, attempts, _ =>
    match outcome (attempts + 1) with
    | .ok status =>
      { result := { success := true, webhookUrl := url, statusCode := some status,
                    attempts := 1 },
        performedAttempts := [attempts + 1], delays := [] }
    | .error e =>
      let rest := sendLoop url outcome delayMs remaining (attempts + 1) (some e)
      { result := rest.result,
        performedAttempts := (attempts + 1) :: rest.performedAttempts,
        delays := (if remaining ≠ 0 then [delayMs * (attempts + 1)] else []) ++ rest.delays }

/-- `WebhookClient.send`: resolves `maxAttempts` (default 3) and `delayMs`
(default 1000) from the config and runs the retry loop from attempt 0. -/
def WebhookClient.send {α : Type} (config : WebhookConfig α)
    (outcome : Nat → Except String Nat) : SendTrace :=
  sendLoop config.url outcome ((config.retry.bind RetryPolicy.delayMs).getD 1000)
    ((config.retry.bind RetryPolicy.maxAttempts).getD 3) 0 none

/-- Resolved `maxAttempts` of a config (`config.retry?.maxAttempts ?? 3`). -/
def resolvedMaxAttempts {α : Type} (config : WebhookConfig α) : Nat :=
  (config.retry.bind RetryPolicy.maxAttempts).getD 3

/-- Resolved `delayMs` of a config (`config.retry?.delayMs ?? 1000`). -/
def resolvedDelayMs {α : Type} (config : WebhookConfig α) : Nat :=
  (config.retry.bind RetryPolicy.delayMs).getD 1000

/-! ## Dispatcher (src/index.ts and the batch-aware plugin of src/types.ts) -/

/-- `getWebhookKey`: the key under which a rate-limited destination's batch
handler is stored (`url + ":" + events.join(",")`). -/
def getWebhookKey {α : Type} (w : WebhookConfig α) : String :=
  w.url ++ ":" ++ String.intercalate "," w.events

/-- The keys present in `batchHandlers` after `indexWebhooks` ran: one entry
per configured webhook that has `rateLimit` set. -/
def indexBatchKeys {α : Type} (webhooks : List (WebhookConfig α)) : List String :=
  webhooks.filterMap (fun w => if w.rateLimit.isSome then some (getWebhookKey w) else none)

/-- A delivery submission made while processing one webhook: either a direct
`client.send` HTTP call or a hand-off to the destination's batch handler. -/
inductive Submission (α : Type) where
  | http (url : String) (payload : α)
  | batch (url : String) (payload : α)
deriving DecidableEq, Repr

/-- The filter guard `webhook.shouldSend && !webhook.shouldSend(payload)`:
the webhook is filtered out exactly when `shouldSend` is present and returns
false, i.e. when this function returns false. -/
def shouldSendPasses {α : Type} (w : WebhookConfig α) (payload : α) : Bool :=
  match w.shouldSend with
  | none => true
  | some f => f payload

/-- `WebhookPlugin.processWebhook` (src/types.ts): filter check, then the
rate-limited path (enqueue and answer `{success: true, attempts: 0}`), else
the direct path.  `deliver` is the oracle for `sendWebhook`/`client.send`;
the second component records the submissions made. -/
def processWebhook {α : Type} (w : WebhookConfig α) (payload : α) (batchKeys : List String)
    (deliver : WebhookConfig α → α → WebhookResult) : WebhookResult × List (Submission α) :=
  if shouldSendPasses w payload = false then
    ({ success := true, webhookUrl := w.url, attempts := 0 }, [])
  else if w.rateLimit.isSome ∧ getWebhookKey w ∈ batchKeys then
    ({ success := true, webhookUrl := w.url, attempts := 0 }, [Submission.batch w.url payload])
  else
    (deliver w payload, [Submission.http w.url payload])

/-- `WebhookPlugin.sendWebhook` (src/index.ts): filter check, then a direct
`client.send` with defaults applied. -/
def sendWebhook {α : Type} (w : WebhookConfig α) (payload : α)
    (deliver : WebhookConfig α → α → WebhookResult) : WebhookResult × List (Submission α) :=
  if shouldSendPasses w payload = false then
    ({ success := true, webhookUrl := w.url, attempts := 0 }, [])
  else
    (deliver w payload, [Submission.http w.url payload])

/-- How `handleEvent` turns one `Promise.allSettled` entry into a result: a
fulfilled promise yields its value, a rejection is converted into a failed
result with `reason?.message || 'Unknown error'`. -/
def settleResult : Except String WebhookResult → WebhookResult
  | .ok r => r
  | .error msg =>
    { success := false, webhookUrl := "unknown",
      error := some (jsOrElse (some msg) "Unknown error"), attempts := 1 }

/-- `WebhookPlugin.handleEvent`: over the destinations subscribed to the
event, process each independently (the `process` oracle may throw) and settle
every outcome into exactly one result.  The empty-subscription early return
of the source is kept. -/
def WebhookPlugin.handleEvent {α : Type} (subscribed : List (WebhookConfig α))
    (process : WebhookConfig α → Except String WebhookResult) : List WebhookResult :=
  if subscribed.isEmpty then []
  else subscribed.map (fun w => settleResult (process w))

/-! ## Batch handler (src/batch-handler.ts)

Per-destination sliding-window rate limiter.  `Date.now()` is an explicit
`now` parameter; the `await sendCallback(...)` calls are recorded in a send
log (payload, send time, `rateLimitDelayed` flag). -/

/-- One invocation of the batch handler's `sendCallback`. -/
structure Send (α : Type) where
  payload : α
  time : Nat
  rateLimitDelayed : Bool
deriving DecidableEq, Repr

/-- Mutable state of one `BatchHandler`: the FIFO backlog `queue` and the
`requestTimestamps` window log. -/
structure BatchState (α : Type) where
  queue : List α := []
  requestTimestamps : List Nat := []
deriving DecidableEq, Repr

/-- `this.requestTimestamps.filter((ts) => now - ts < windowMs)`. -/
def pruneTimestamps (windowMs now : Nat) (ts : List Nat) : List Nat :=
  ts.filter (fun t => now - t < windowMs)

/-- The `while (this.queue.length > 0)` loop of `BatchHandler.flush`: each
iteration prunes the window, and either sends the oldest queued payload
(recording a timestamp) or stops, leaving the rest queued.  Returns the
remaining queue, the new timestamp list, and the sends performed. -/
def flushLoop {α : Type} (maxRequests windowMs now : Nat) :
    List α → List Nat → List α × List Nat × List (Send α)
  | [], ts => ([], ts, [])
  | p :: rest, ts =>
    let pruned := pruneTimestamps windowMs now ts
    if pruned.length < maxRequests then
      let r := flushLoop maxRequests windowMs now rest (pruned ++ [now])
      (r.1, r.2.1, ⟨p, now, true⟩ :: r.2.2)
    else
      (p :: rest, pruned, [])

/-- `BatchHandler.flush`: early return on an empty queue, else drain as much
of the queue as the window allows. -/
def BatchHandler.flush {α : Type} (rl : RateLimit) (now : Nat) (st : BatchState α) :
    BatchState α × List (Send α) :=
  if st.queue.isEmpty then (st, [])
  else
    let r := flushLoop rl.maxRequests rl.windowMs now st.queue st.requestTimestamps
    ({ queue := r.1, requestTimestamps := r.2.1 }, r.2.2)

/-- `BatchHandler.addEvent`: without `rateLimit`, send immediately; with it,
prune the window, then either send immediately (empty queue and capacity),
queue-and-flush (capacity but backlog present), or queue (no capacity; the
flush timer scheduling is modelled by later `flush` transitions). -/
def BatchHandler.addEvent {α : Type} (config : WebhookConfig α) (now : Nat) (payload : α)
    (st : BatchState α) : BatchState α × List (Send α) :=
  match config.rateLimit with
  | none => (st, [⟨payload, now, false⟩])
  | some rl =>
    let pruned := pruneTimestamps rl.windowMs now st.requestTimestamps
    if pruned.length < rl.maxRequests then
      if st.queue.isEmpty then
        ({ queue := st.queue, requestTimestamps := pruned ++ [now] }, [⟨payload, now, false⟩])
      else
        BatchHandler.flush rl now { queue := st.queue ++ [payload], requestTimestamps := pruned }
    else
      ({ queue := st.queue ++ [payload], requestTimestamps := pruned }, [])

/-- An externally observable batch-handler step: an `addEvent` call or a
(scheduled) `flush` timer firing, each at a `Date.now()` reading. -/
inductive BatchOp (α : Type) where
  | add (now : Nat) (payload : α)
  | flushTimer (now : Nat)
deriving DecidableEq, Repr

/-- The `Date.now()` reading of a step. -/
def BatchOp.time {α : Type} : BatchOp α → Nat
  | .add t _ => t
  | .flushTimer t => t

/-- Apply one step to the handler state. -/
def applyBatchOp {α : Type} (config : WebhookConfig α) (st : BatchState α) :
    BatchOp α → BatchState α × List (Send α)
  | .add t p => BatchHandler.addEvent config t p st
  | .flushTimer t =>
    match config.rateLimit with
    | none => (st, [])
    | some rl => BatchHandler.flush rl t st

/-- Run a sequence of steps, concatenating the send logs. -/
def runBatchOps {α : Type} (config : WebhookConfig α) (st : BatchState α) :
    List (BatchOp α) → BatchState α × List (Send α)
  | [] => (st, [])
  | op :: rest =>
    let r := applyBatchOp config st op
    let r2 := runBatchOps config r.1 rest
    (r2.1, r.2 ++ r2.2)

/-- The `Date.now()` readings never go backwards: `t0` bounds the first step
and each step's time bounds the next. -/
def timesMonotone {α : Type} (t0 : Nat) (ops : List (BatchOp α)) : Prop :=
  List.Chain' (· ≤ ·) (t0 :: ops.map BatchOp.time)

/-- Number of send timestamps inside the trailing `windowMs` interval ending
at `atTime`, i.e. in `(atTime - windowMs, atTime]`. -/
def windowCount (windowMs atTime : Nat) (times : List Nat) : Nat :=
  (times.filter (fun s => decide (atTime < s + windowMs) && decide (s ≤ atTime))).length

/-! ## Agent completion middleware (src/middleware.ts)

The per-session accumulator.  JavaScript `Map`s are embedded as
insertion-ordered association lists (`set` updates in place or appends),
`Set`s as duplicate-free lists.  A missing or empty-string id is falsy and
makes the handlers return early, as in the source. -/

/-- Fields of `part` read by `handleMessagePartUpdated`. -/
structure PartInfo where
  type : String
  sessionID : Option String := none
  messageID : Option String := none
  id : String := ""
  text : String := ""
deriving DecidableEq, Repr

/-- Fields of `info` read by `handleMessageUpdated`.  Token usage and cost
are opaque to the claims and carried as optional numbers. -/
structure MsgInfo where
  role : String
  sessionID : Option String := none
  id : Option String := none
  tokens : Option Nat := none
  cost : Option Nat := none
deriving DecidableEq, Repr

/-- The event shapes `AgentCompletionMiddleware.handleEvent` dispatches on;
`other` stands for every event type the switch ignores. -/
inductive OpencodeEvent where
  | messagePartUpdated (part : PartInfo)
  | messageUpdated (info : MsgInfo)
  | sessionIdle (sessionID : Option String)
  | other
deriving DecidableEq, Repr

/-- `SessionState` of the middleware. -/
structure SessionState where
  parts : List (String × String) := []
  assistantMessageIds : List String := []
  lastMessageId : Option String := none
  lastTokens : Option Nat := none
  lastCost : Option Nat := none
deriving DecidableEq, Repr

/-- JavaScript truthiness of an optional string guard (`!sessionId`):
`undefined` and `""` are falsy. -/
def jsTruthy : Option String → Bool
  | none => false
  | some s => !(s == "")

/-- `Map.prototype.set`: update an existing key in place (keeping its
insertion position) or append a new entry. -/
def mapSet {β : Type} (k : String) (v : β) : List (String × β) → List (String × β)
  | [] => [(k, v)]
  | (k', v') :: rest => if k' = k then (k, v) :: rest else (k', v') :: mapSet k v rest

/-- `Map.prototype.get`. -/
def mapGet {β : Type} (k : String) : List (String × β) → Option β
  | [] => none
  | (k', v) :: rest => if k' = k then some v else mapGet k rest

/-- `Map.prototype.delete`. -/
def mapDelete {β : Type} (k : String) : List (String × β) → List (String × β)
  | [] => []
  | (k', v) :: rest => if k' = k then rest else (k', v) :: mapDelete k rest

/-- `Set.prototype.add`. -/
def setAdd (x : String) (s : List String) : List String :=
  if x ∈ s then s else s ++ [x]

/-- State of the middleware: `sessions : Map<sessionId, SessionState>`. -/
structure MiddlewareState where
  sessions : List (String × SessionState) := []
deriving DecidableEq, Repr

/-- `if (!this.sessions.has(sessionId)) this.sessions.set(sessionId, fresh)`. -/
def getOrInitSession (sid : String) (st : MiddlewareState) : MiddlewareState :=
  match mapGet sid st.sessions with
  | some _ => st
  | none => { sessions := st.sessions ++ [(sid, {})] }

/-- `handleMessagePartUpdated`: track text parts of registered assistant
messages only; unregistered message ids are discarded (after the session has
been initialised, as in the source). -/
def handleMessagePartUpdated (part : PartInfo) (st : MiddlewareState) : MiddlewareState :=
  if !(part.type == "text") then st
  else if !(jsTruthy part.sessionID && jsTruthy part.messageID) then st
  else
    let sid := part.sessionID.getD ""
    let mid := part.messageID.getD ""
    let st1 := getOrInitSession sid st
    let s := (mapGet sid st1.sessions).getD {}
    if mid ∈ s.assistantMessageIds then
      { sessions := mapSet sid
          { s with parts := mapSet part.id part.text s.parts, lastMessageId := some mid }
          st1.sessions }
    else st1

/-- `handleMessageUpdated`: register assistant message ids and overwrite the
usage snapshot. -/
def handleMessageUpdated (info : MsgInfo) (st : MiddlewareState) : MiddlewareState :=
  if !(info.role == "assistant") then st
  else if !(jsTruthy info.sessionID && jsTruthy info.id) then st
  else
    let sid := info.sessionID.getD ""
    let mid := info.id.getD ""
    let st1 := getOrInitSession sid st
    let s := (mapGet sid st1.sessions).getD {}
    { sessions := mapSet sid
        { s with assistantMessageIds := setAdd mid s.assistantMessageIds,
                 lastTokens := info.tokens, lastCost := info.cost }
        st1.sessions }

/-- JavaScript `trimStart()`: drop leading whitespace. -/
def jsTrimStart (s : String) : String :=
  ⟨s.data.dropWhile Char.isWhitespace⟩

/-- JavaScript `trimEnd()`: drop trailing whitespace. -/
def jsTrimEnd (s : String) : String :=
  ⟨(s.data.reverse.dropWhile Char.isWhitespace).reverse⟩

/-- JavaScript `trim()`: drop whitespace on both sides. -/
def jsTrim (s : String) : String :=
  jsTrimStart (jsTrimEnd s)

/-- Regex test `/[.!?\n]$/` on the trailing-trimmed previous result. -/
def endsCleanly (s : String) : Bool :=
  match s.data.getLast? with
  | none => false
  | some c => c == '.' || c == '!' || c == '?' || c == '\n'

/-- Regex test `/^[A-Z#*\-\d]/` on the leading-trimmed next fragment. -/
def startsNewThought (s : String) : Bool :=
  match s.data with
  | [] => false
  | c :: _ =>
    (decide ('A' ≤ c) && decide (c ≤ 'Z')) || c == '#' || c == '*' || c == '-' || c.isDigit

/-- Regex test `/\s$/` (false on the empty string). -/
def endsWithWhitespace (s : String) : Bool :=
  match s.data.getLast? with
  | none => false
  | some c => c.isWhitespace

/-- Regex test `/^\s/` (false on the empty string). -/
def startsWithWhitespace (s : String) : Bool :=
  match s.data with
  | [] => false
  | c :: _ => c.isWhitespace

/-- One iteration of the `joinMessageParts` loop: skip fragments that are
empty after leading trim, insert a paragraph break after a clean sentence end
or before a new thought, else a single space when neither side touches
whitespace. -/
def joinStep (result : String) (next : String) : String :=
  let prevText := jsTrimEnd result
  let nextText := jsTrimStart next
  if nextText = "" then result
  else if endsCleanly prevText || startsNewThought nextText then
    prevText ++ "\n\n" ++ nextText
  else
    let needsSpace := !endsWithWhitespace result && !startsWithWhitespace next
    result ++ (if needsSpace then " " else "") ++ next

/-- `AgentCompletionMiddleware.joinMessageParts`. -/
def joinMessageParts (parts : List String) : String :=
  match parts with
  | [] => ""
  | [p] => jsTrim p
  | p :: rest => jsTrim (rest.foldl joinStep p)

/-- The completion payload (`AgentCompletedPayload` in src/types.ts). -/
structure AgentCompletedPayload where
  timestamp : String
  eventType : String := "agent.completed"
  sessionId : String
  sessionTitle : String
  messageContent : String
  messageId : Option String := none
  tokens : Option Nat := none
  cost : Option Nat := none
deriving DecidableEq, Repr

/-- `handleSessionIdle`: nothing to report on a falsy session id, an unknown
session or an empty part map; otherwise emit the completion payload (the
`title` oracle stands for `getSessionTitle` with its fallback chain, `nowTs`
for `new Date().toISOString()`) and clear the session state. -/
def handleSessionIdle (title : String → String) (nowTs : String) (sessionID : Option String)
    (st : MiddlewareState) : MiddlewareState × Option AgentCompletedPayload :=
  if !jsTruthy sessionID then (st, none)
  else
    let sid := sessionID.getD ""
    match mapGet sid st.sessions with
    | none => (st, none)
    | some s =>
      if s.parts.length = 0 then (st, none)
      else
        ({ sessions := mapDelete sid st.sessions },
         some { timestamp := nowTs, sessionId := sid, sessionTitle := title sid,
                messageContent := joinMessageParts (s.parts.map Prod.snd),
                messageId := s.lastMessageId, tokens := s.lastTokens, cost := s.lastCost })

/-- `AgentCompletionMiddleware.handleEvent`: dispatch on the event type.  The
optional second component is the payload passed to `onComplete`. -/
def Middleware.handleEvent (title : String → String) (nowTs : String) (ev : OpencodeEvent)
    (st : MiddlewareState) : MiddlewareState × Option AgentCompletedPayload :=
  match ev with
  | .messagePartUpdated part => (handleMessagePartUpdated part st, none)
  | .messageUpdated info => (handleMessageUpdated info st, none)
  | .sessionIdle sid => handleSessionIdle title nowTs sid st
  | .other => (st, none)

/-- Run a list of events through the middleware, collecting the emissions. -/
def runEvents (title : String → String) (nowTs : String) (st : MiddlewareState) :
    List OpencodeEvent → MiddlewareState × List AgentCompletedPayload
  | [] => (st, [])
  | ev :: rest =>
    let r := Middleware.handleEvent title nowTs ev st
    let r2 := runEvents title nowTs r.1 rest
    (r2.1, r.2.toList ++ r2.2)

/-- The part map of one session in a middleware state (empty when the
session is unknown). -/
def partsOf (sid : String) (st : MiddlewareState) : List (String × String) :=
  match mapGet sid st.sessions with
  | none => []
  | some s => s.parts

/-- Does this `message.part.updated` event reach the whitelist check for
session `sid` (text-typed, truthy ids, addressed to `sid`)? -/
def partTargets (sid : String) (part : PartInfo) : Bool :=
  (part.type == "text") && jsTruthy part.sessionID && jsTruthy part.messageID &&
    (part.sessionID.getD "" == sid)

/-- Along a run of the middleware, every `message.part.updated` event for
session `sid` carries a `messageId` that is unregistered at the moment the
event is processed. -/
def allPartsUnregistered (title : String → String) (nowTs : String) (sid : String) :
    MiddlewareState → List OpencodeEvent → Bool
  | _, [] => true
  | st, ev :: rest =>
    let ok :=
      match ev with
      | .messagePartUpdated part =>
        if partTargets sid part then
          !(((mapGet sid st.sessions).getD {}).assistantMessageIds.contains
              (part.messageID.getD ""))
        else true
      | _ => true
    ok && allPartsUnregistered title nowTs sid (Middleware.handleEvent title nowTs ev st).1 rest

/-! ## Idle-delay debounce (modelled from the spec)

The repository declares `AgentNotificationConfig.idleDelaySecs` in
src/types.ts and tests the debounce behaviour in tests/middleware.test.ts,
but the timer-based implementation itself is not among the sources under
src/; the definitions below model it from the specification text. -/

/-- Modelled from the spec: the debounced aggregator's state.  Missing from
src/ is the middleware variant holding per-session pending idle timers; the
spec says a non-zero `idleDelaySecs` makes "session idle" (re)start a
per-session timer instead of emitting, renewed activity cancels the pending
emission while retaining the accumulated state, and only an uninterrupted
timer firing performs the emission.  `pending` maps a session id to the
absolute time at which its timer fires. -/
structure DebounceState where
  base : MiddlewareState := {}
  pending : List (String × Nat) := []
deriving DecidableEq, Repr

/-- Modelled from the spec: the session whose arrival counts as renewed
activity ("further message updated or message-part updated activity arrives
for that session"). -/
def activitySession : OpencodeEvent → Option String
  | .messagePartUpdated part =>
    if jsTruthy part.sessionID then some (part.sessionID.getD "") else none
  | .messageUpdated info =>
    if jsTruthy info.sessionID then some (info.sessionID.getD "") else none
  | _ => none

/-- Modelled from the spec: cancel the pending emission of the session the
activity belongs to ("the pending emission is cancelled — state is retained,
not cleared, on cancellation"). -/
def cancelPendingFor (ev : OpencodeEvent) (pending : List (String × Nat)) :
    List (String × Nat) :=
  match activitySession ev with
  | some sid => mapDelete sid pending
  | none => pending

/-- Modelled from the spec: process one incoming event at time `t`.  With
`idleDelaySecs = 0` a "session idle" emits immediately; with a non-zero delay
it (re)starts that session's timer to fire at `t + idleDelaySecs * 1000`
(debounce, not accumulate).  Message activity cancels the session's pending
timer and then accumulates as usual. -/
def debounceStep (idleDelaySecs : Nat) (title : String → String) (nowTs : String)
    (t : Nat) (ev : OpencodeEvent) (st : DebounceState) :
    DebounceState × List AgentCompletedPayload :=
  match ev with
  | .sessionIdle sid =>
    if idleDelaySecs = 0 then
      let r := handleSessionIdle title nowTs sid st.base
      ({ st with base := r.1 }, r.2.toList)
    else if jsTruthy sid then
      ({ st with pending := mapSet (sid.getD "") (t + idleDelaySecs * 1000) st.pending }, [])
    else (st, [])
  | _ =>
    let pending := cancelPendingFor ev st.pending
    let r := Middleware.handleEvent title nowTs ev st.base
    ({ base := r.1, pending := pending }, r.2.toList)

/-- Modelled from the spec: fire every pending timer due by time `t`, in
schedule order; each firing performs the ordinary idle emission and is
removed from the pending map. -/
def fireDue (title : String → String) (nowTs : String) (t : Nat) :
    List (String × Nat) → MiddlewareState →
    List (String × Nat) × MiddlewareState × List AgentCompletedPayload
  | [], base => ([], base, [])
  | (sid, ft) :: rest, base =>
    if ft ≤ t then
      let r := handleSessionIdle title nowTs (some sid) base
      let r2 := fireDue title nowTs t rest r.1
      (r2.1, r2.2.1, r.2.toList ++ r2.2.2)
    else
      let r2 := fireDue title nowTs t rest base
      ((sid, ft) :: r2.1, r2.2.1, r2.2.2)

/-- Modelled from the spec: let time advance to `t`, firing the timers that
come due. -/
def debounceTick (title : String → String) (nowTs : String) (t : Nat)
    (st : DebounceState) : DebounceState × List AgentCompletedPayload :=
  let r := fireDue title nowTs t st.pending st.base
  ({ base := r.2.1, pending := r.1 }, r.2.2)

/-! ## The smart-separator join as the spec words it

A second definition of the join, following the specification sentence
verbatim, to be compared with `joinMessageParts` above (which is translated
from the source). -/

/-- One fold step as the spec words it: "skip any fragment that is empty
after trimming leading whitespace.  Otherwise ... if the previous result ends
in `.`, `!`, `?`, or newline, OR the current fragment begins with an
uppercase letter, `#`, `*`, `-`, or a digit, join with a double newline;
otherwise join with a single space only if neither side already ends/begins
with whitespace (else concatenate directly)." -/
def specSmartJoinStep (acc fragment : String) : String :=
  if jsTrimStart fragment = "" then acc
  else if endsCleanly (jsTrimEnd acc) || startsNewThought (jsTrimStart fragment) then
    jsTrimEnd acc ++ "\n\n" ++ jsTrimStart fragment
  else if !endsWithWhitespace acc && !startsWithWhitespace fragment then
    acc ++ " " ++ fragment
  else
    acc ++ fragment

/-- The spec's smart-separator join: fold left-to-right over the ordered
fragments; an empty list gives the empty string, a single fragment is
returned trimmed, and the final result is trimmed. -/
def specSmartJoin : List String → String
  | [] => ""
  | [f] => jsTrim f
  | f :: rest => jsTrim (rest.foldl specSmartJoinStep f)

/-- Invariant tying the full send log of a rate-limited destination to its
pruned `requestTimestamps` list: at the current time `tcur` every logged and
every retained timestamp lies in the past, and pruning the full log and
pruning the retained list agree at every present or future instant (the
entries the handler has dropped are precisely those no pruning at time
`≥ tcur` would keep). -/
def BatchInv (windowMs tcur : Nat) (log ts : List Nat) : Prop :=
  (∀ s ∈ log, s ≤ tcur) ∧ (∀ s ∈ ts, s ≤ tcur) ∧
  (∀ t, tcur ≤ t → pruneTimestamps windowMs t log = pruneTimestamps windowMs t ts)

/-! ## Theorems -/

theorem joinStep_eq_specSmartJoinStep : joinStep = specSmartJoinStep := by
  funext a b
  unfold joinStep specSmartJoinStep
  by_cases h1 : jsTrimStart b = ""
  · simp [h1]
  · simp only [h1, if_false]
    by_cases h2 : (endsCleanly (jsTrimEnd a) || startsNewThought (jsTrimStart b)) = true
    · simp [h2]
    · simp only [h2, if_false]
      by_cases h3 : (!endsWithWhitespace a && !startsWithWhitespace b) = true
      · simp [h3]
      · simp [h3]

/-- Claim C10: the smart-separator join function equals the specified fold —
fragments empty after leading trim are skipped, a double newline is inserted
after a clean sentence end or before a new thought, otherwise a single space
only when neither side touches whitespace, the final result is trimmed, a
single fragment is returned trimmed and the empty list gives the empty
string — and joining the two example sentences yields the first sentence, a
blank line, then the second. -/
theorem joinMessageParts_eq_spec :
    (∀ parts : List String, joinMessageParts parts = specSmartJoin parts) ∧
    joinMessageParts ["I completed the first task.", "Now working on the second task."] =
      "I completed the first task.\n\nNow working on the second task." := by
  constructor
  · intro parts
    unfold joinMessageParts specSmartJoin
    rw [joinStep_eq_specSmartJoinStep]
  · decide

theorem sendLoop_step_error (url : String) (outcome : Nat → Except String Nat)
    (delayMs remaining attempts : Nat) (lastError : Option String) (e : String)
    (h : outcome (attempts + 1) = Except.error e) :
    sendLoop url outcome delayMs (remaining + 1) attempts lastError =
      { result := (sendLoop url outcome delayMs remaining (attempts + 1) (some e)).result,
        performedAttempts :=
          (attempts + 1) ::
            (sendLoop url outcome delayMs remaining (attempts + 1) (some e)).performedAttempts,
        delays :=
          (if remaining ≠ 0 then [delayMs * (attempts + 1)] else []) ++
            (sendLoop url outcome delayMs remaining (attempts + 1) (some e)).delays } := by
  simp only [sendLoop, h]

theorem sendLoop_success (url : String) (outcome : Nat → Except String Nat) (delayMs : Nat)
    (status : Nat) :
    ∀ (remaining attempts : Nat) (lastError : Option String) (n : Nat),
      attempts < n → n ≤ attempts + remaining →
      (∀ j, attempts < j → j < n → ∃ e, outcome j = Except.error e) →
      outcome n = Except.ok status →
      sendLoop url outcome delayMs remaining attempts lastError =
        { result := { success := true, webhookUrl := url, statusCode := some status,
                      attempts := 1 },
          performedAttempts := List.range' (attempts + 1) (n - attempts),
          delays := (List.range' (attempts + 1) (n - attempts - 1)).map
            (fun a => delayMs * a) } := by
  intro remaining
  induction remaining with
  | zero =>
    intro attempts lastError n hlt hle _ _
    omega
  | succ r ih =>
    intro attempts lastError n hlt hle hfail hok
    by_cases hn : attempts + 1 = n
    · subst hn
      simp only [sendLoop, hok]
      have h1 : attempts + 1 - attempts = 1 := by omega
      rw [h1]
      simp [List.range'_one]
    · have hlt' : attempts + 1 < n := by omega
      obtain ⟨e, he⟩ := hfail (attempts + 1) (by omega) hlt'
      simp only [sendLoop, he]
      rw [ih (attempts + 1) (some e) n hlt' (by omega)
        (fun j hj1 hj2 => hfail j (by omega) hj2) hok]
      have hr : r ≠ 0 := by omega
      simp only [hr, if_true, ite_true, ne_eq, not_false_iff]
      have h2 : n - attempts - 1 = (n - (attempts + 1) - 1) + 1 := by omega
      have h1 : n - attempts = (n - (attempts + 1)) + 1 := by omega
      rw [h2, h1, List.range'_succ, List.range'_succ]
      simp [List.map_cons]

/-- Claim C1 (amended): when the HTTP attempt first succeeds on attempt
number `n` (1 ≤ n ≤ maxAttempts), `WebhookClient.send` returns immediately
after that attempt — the performed attempts are exactly 1..n and only the
backoff delays before attempt n are awaited — with `success = true` and the
response's status code; the `attempts` field of the returned result, however,
is the constant 1 recorded by `sendOnce`, not `n`. -/
theorem send_success_returns_immediately {α : Type} (config : WebhookConfig α)
    (outcome : Nat → Except String Nat) (n status : Nat)
    (h1 : 1 ≤ n) (h2 : n ≤ resolvedMaxAttempts config)
    (hfail : ∀ j, 1 ≤ j → j < n → ∃ e, outcome j = Except.error e)
    (hok : outcome n = Except.ok status) :
    WebhookClient.send config outcome =
      { result := { success := true, webhookUrl := config.url, statusCode := some status,
                    attempts := 1 },
        performedAttempts := List.range' 1 n,
        delays := (List.range' 1 (n - 1)).map (fun a => resolvedDelayMs config * a) } := by
  unfold WebhookClient.send
  have hD : (config.retry.bind RetryPolicy.delayMs).getD 1000 = resolvedDelayMs config := rfl
  have hM : (config.retry.bind RetryPolicy.maxAttempts).getD 3 = resolvedMaxAttempts config := rfl
  rw [hD, hM]
  rw [sendLoop_success config.url outcome (resolvedDelayMs config) status
    (resolvedMaxAttempts config) 0 none n
    (by omega) (by omega) (fun j hj1 hj2 => hfail j (by omega) hj2) hok]
  simp

theorem send_success_returns_immediately_witness :
    (1 ≤ 2 ∧ 2 ≤ resolvedMaxAttempts (α := Nat) { url := "https://example.com/hook" }) ∧
    WebhookClient.send (α := Nat) { url := "https://example.com/hook" }
        (fun a => if a = 1 then Except.error "Network error" else Except.ok 200) =
      { result := { success := true, webhookUrl := "https://example.com/hook",
                    statusCode := some 200, attempts := 1 },
        performedAttempts := List.range' 1 2,
        delays := (List.range' 1 1).map
          (fun a => resolvedDelayMs (α := Nat) { url := "https://example.com/hook" } * a) } :=
  ⟨⟨by decide, by decide⟩,
    send_success_returns_immediately { url := "https://example.com/hook" }
      (fun a => if a = 1 then Except.error "Network error" else Except.ok 200) 2 200
      (by decide) (by decide)
      (fun j hj1 hj2 => ⟨"Network error", by
        have hj : j = 1 := by omega
        subst hj
        rfl⟩)
      (by rfl)⟩

/-- Claim C1 counterexample: with `maxAttempts = 3` and a transport that
fails attempt 1 and succeeds on attempt 2, `send` performs attempts 1 and 2
and succeeds, yet the returned `attempts` field is 1, not the number 2 of the
attempt that succeeded, refuting the claimed `attempts = n`. -/
theorem send_success_attempts_counterexample :
    (WebhookClient.send (α := Nat) { url := "https://example.com/hook" }
        (fun a => if a = 1 then Except.error "Network error" else Except.ok 200)).performedAttempts
        = [1, 2] ∧
    (WebhookClient.send (α := Nat) { url := "https://example.com/hook" }
        (fun a => if a = 1 then Except.error "Network error" else Except.ok 200)).result.success
        = true ∧
    ¬ ((WebhookClient.send (α := Nat) { url := "https://example.com/hook" }
        (fun a => if a = 1 then Except.error "Network error" else Except.ok 200)).result.attempts
        = 2) := by
  refine ⟨by decide, by decide, by decide⟩

theorem sendLoop_all_failures (url : String) (outcome : Nat → Except String Nat)
    (delayMs : Nat) (errs : Nat → String) :
    ∀ (r attempts : Nat) (lastError : Option String),
      (∀ j, attempts < j → j ≤ attempts + r + 1 → outcome j = Except.error (errs j)) →
      sendLoop url outcome delayMs (r + 1) attempts lastError =
        { result := { success := false, webhookUrl := url,
                      error := some (jsOrElse (some (errs (attempts + r + 1))) "Unknown error"),
                      attempts := attempts + r + 1 },
          performedAttempts := List.range' (attempts + 1) (r + 1),
          delays := (List.range' (attempts + 1) r).map (fun a => delayMs * a) } := by
  intro r
  induction r with
  | zero =>
    intro attempts lastError hfail
    have he := hfail (attempts + 1) (by omega) (by omega)
    simp only [sendLoop, he]
    simp [List.range'_one]
  | succ r ih =>
    intro attempts lastError hfail
    have he := hfail (attempts + 1) (by omega) (by omega)
    rw [sendLoop_step_error url outcome delayMs (r + 1) attempts lastError _ he]
    rw [ih (attempts + 1) (some (errs (attempts + 1)))
      (fun j hj1 hj2 => hfail j (by omega) (by omega))]
    have harith : attempts + 1 + r + 1 = attempts + (r + 1) + 1 := by omega
    rw [harith]
    have hr : r + 1 ≠ 0 := by omega
    simp only [hr, ite_true, if_true, ne_eq, not_false_iff]
    rw [List.range'_succ (attempts + 1) (r + 1), List.range'_succ (attempts + 1) r]
    simp [List.map_cons]

/-- Claim C6: when every HTTP attempt fails, `WebhookClient.send` performs
exactly `maxAttempts` attempts (the resolved `config.retry?.maxAttempts ?? 3`),
awaits `delayMs * attemptNumber` between consecutive attempts, and returns
(it is a total function, never throwing) `success = false`,
`attempts = maxAttempts`, and an error message derived from the last failure
(`lastError || 'Unknown error'`). -/
theorem send_all_failures_exhausts_retries {α : Type} (config : WebhookConfig α)
    (outcome : Nat → Except String Nat) (errs : Nat → String)
    (hpos : 1 ≤ resolvedMaxAttempts config)
    (hfail : ∀ j, 1 ≤ j → j ≤ resolvedMaxAttempts config → outcome j = Except.error (errs j)) :
    WebhookClient.send config outcome =
      { result := { success := false, webhookUrl := config.url,
                    error := some (jsOrElse (some (errs (resolvedMaxAttempts config)))
                      "Unknown error"),
                    attempts := resolvedMaxAttempts config },
        performedAttempts := List.range' 1 (resolvedMaxAttempts config),
        delays := (List.range' 1 (resolvedMaxAttempts config - 1)).map
          (fun a => resolvedDelayMs config * a) } := by
  obtain ⟨r, hr⟩ : ∃ r, resolvedMaxAttempts config = r + 1 :=
    ⟨resolvedMaxAttempts config - 1, by omega⟩
  unfold WebhookClient.send
  have hD : (config.retry.bind RetryPolicy.delayMs).getD 1000 = resolvedDelayMs config := rfl
  have hM : (config.retry.bind RetryPolicy.maxAttempts).getD 3 = resolvedMaxAttempts config := rfl
  rw [hD, hM, hr]
  rw [sendLoop_all_failures config.url outcome (resolvedDelayMs config) errs r 0 none
    (fun j hj1 hj2 => hfail j (by omega) (by omega))]
  simp

theorem send_all_failures_exhausts_retries_witness :
    (1 ≤ resolvedMaxAttempts (α := Nat) { url := "https://example.com/hook" }) ∧
    WebhookClient.send (α := Nat) { url := "https://example.com/hook" }
        (fun _ => Except.error "Network error") =
      { result := { success := false, webhookUrl := "https://example.com/hook",
                    error := some "Network error", attempts := 3 },
        performedAttempts := [1, 2, 3],
        delays := [1000, 2000] } := by
  refine ⟨by decide, ?_⟩
  have h := send_all_failures_exhausts_retries (α := Nat) { url := "https://example.com/hook" }
    (fun _ => Except.error "Network error") (fun _ => "Network error")
    (by decide) (fun j _ _ => rfl)
  rw [h]
  decide

/-- Claim C8: a destination whose `shouldSend` filter is present and returns
false on the payload makes no HTTP submission at all, and its result is
exactly `{success: true, attempts: 0}` — on both the batch-aware
`processWebhook` path and the direct `sendWebhook` path. -/
theorem filtered_destination_skips_delivery {α : Type} (w : WebhookConfig α) (payload : α)
    (f : α → Bool) (batchKeys : List String) (deliver : WebhookConfig α → α → WebhookResult)
    (hf : w.shouldSend = some f) (hfalse : f payload = false) :
    processWebhook w payload batchKeys deliver =
      ({ success := true, webhookUrl := w.url, attempts := 0 }, []) ∧
    sendWebhook w payload deliver =
      ({ success := true, webhookUrl := w.url, attempts := 0 }, []) := by
  have hpass : shouldSendPasses w payload = false := by
    unfold shouldSendPasses
    rw [hf]
    exact hfalse
  constructor
  · unfold processWebhook
    rw [hpass]
    simp
  · unfold sendWebhook
    rw [hpass]
    simp

theorem filtered_destination_skips_delivery_witness :
    processWebhook (α := Nat)
        { url := "https://example.com/hook", shouldSend := some (fun _ => false) } 7 []
        (fun w _ => { success := false, webhookUrl := w.url, attempts := 1 }) =
      ({ success := true, webhookUrl := "https://example.com/hook", attempts := 0 }, []) ∧
    sendWebhook (α := Nat)
        { url := "https://example.com/hook", shouldSend := some (fun _ => false) } 7
        (fun w _ => { success := false, webhookUrl := w.url, attempts := 1 }) =
      ({ success := true, webhookUrl := "https://example.com/hook", attempts := 0 }, []) :=
  filtered_destination_skips_delivery
    { url := "https://example.com/hook", shouldSend := some (fun _ => false) } 7
    (fun _ => false) []
    (fun w _ => { success := false, webhookUrl := w.url, attempts := 1 }) rfl rfl

theorem mem_indexBatchKeys {α : Type} (webhooks : List (WebhookConfig α))
    (w : WebhookConfig α) (hw : w ∈ webhooks) (hrl : w.rateLimit.isSome) :
    getWebhookKey w ∈ indexBatchKeys webhooks := by
  unfold indexBatchKeys
  exact List.mem_filterMap.mpr ⟨w, hw, by rw [if_pos hrl]⟩

/-- Claim C3: for a configured destination with `rateLimit` set whose
`shouldSend` filter passes, `processWebhook` (the per-destination work of
`handleEvent`) always answers `{success: true, attempts: 0}` with no
`rateLimitDelayed` flag, for every possible delivery oracle — the payload is
handed to the batch handler and the real delivery result, whatever it is,
never reaches the caller. -/
theorem rate_limited_result_constant {α : Type} (webhooks : List (WebhookConfig α))
    (w : WebhookConfig α) (payload : α) (rl : RateLimit)
    (deliver : WebhookConfig α → α → WebhookResult)
    (hw : w ∈ webhooks) (hrl : w.rateLimit = some rl)
    (hpass : shouldSendPasses w payload = true) :
    processWebhook w payload (indexBatchKeys webhooks) deliver =
      ({ success := true, webhookUrl := w.url, statusCode := none, error := none,
         attempts := 0, rateLimitDelayed := none },
       [Submission.batch w.url payload]) := by
  have hsome : w.rateLimit.isSome := by rw [hrl]; rfl
  have hkey : getWebhookKey w ∈ indexBatchKeys webhooks := mem_indexBatchKeys webhooks w hw hsome
  unfold processWebhook
  rw [hpass]
  simp [hsome, hkey]

theorem rate_limited_result_constant_witness :
    processWebhook (α := Nat)
        { url := "https://example.com/hook", events := ["session.idle"],
          rateLimit := some { maxRequests := 2, windowMs := 60000 } } 7
        (indexBatchKeys (α := Nat)
          [{ url := "https://example.com/hook", events := ["session.idle"],
             rateLimit := some { maxRequests := 2, windowMs := 60000 } }])
        (fun w _ => { success := false, webhookUrl := w.url, error := some "boom",
                      attempts := 3, rateLimitDelayed := some true }) =
      ({ success := true, webhookUrl := "https://example.com/hook", statusCode := none,
         error := none, attempts := 0, rateLimitDelayed := none },
       [Submission.batch "https://example.com/hook" 7]) :=
  rate_limited_result_constant
    [{ url := "https://example.com/hook", events := ["session.idle"],
       rateLimit := some { maxRequests := 2, windowMs := 60000 } }]
    { url := "https://example.com/hook", events := ["session.idle"],
      rateLimit := some { maxRequests := 2, windowMs := 60000 } } 7
    { maxRequests := 2, windowMs := 60000 }
    (fun w _ => { success := false, webhookUrl := w.url, error := some "boom",
                  attempts := 3, rateLimitDelayed := some true })
    (List.mem_singleton.mpr rfl) rfl rfl

/-- Claim C7: `handleEvent` is a total function (it always resolves, never
rejects) producing exactly one result per subscribed destination, and the
i-th result is fully determined by the i-th destination's own processing
outcome — an exception from one destination is settled into a failed result
(`success = false`, the exception's message, `attempts = 1`) without altering
any other destination's result. -/
theorem handleEvent_isolates_destinations {α : Type}
    (subscribed : List (WebhookConfig α))
    (process : WebhookConfig α → Except String WebhookResult) :
    (WebhookPlugin.handleEvent subscribed process).length = subscribed.length ∧
    (∀ i : Nat, (WebhookPlugin.handleEvent subscribed process)[i]? =
      (subscribed[i]?).map (fun w => settleResult (process w))) ∧
    (∀ msg : String, settleResult (Except.error msg) =
      { success := false, webhookUrl := "unknown",
        error := some (jsOrElse (some msg) "Unknown error"), attempts := 1 }) := by
  unfold WebhookPlugin.handleEvent
  by_cases hempty : subscribed.isEmpty
  · rw [List.isEmpty_iff] at hempty
    subst hempty
    refine ⟨by simp, by simp, fun msg => rfl⟩
  · simp only [hempty, if_false, Bool.false_eq_true]
    refine ⟨List.length_map _ _, fun i => ?_, fun msg => rfl⟩
    rw [List.getElem?_map]

theorem flushLoop_fifo {α : Type} (maxRequests windowMs now : Nat) :
    ∀ (q : List α) (ts : List Nat),
      ((flushLoop maxRequests windowMs now q ts).2.2.map Send.payload) ++
        (flushLoop maxRequests windowMs now q ts).1 = q := by
  intro q
  induction q with
  | nil => intro ts; simp [flushLoop]
  | cons p rest ih =>
    intro ts
    by_cases hcap : (pruneTimestamps windowMs now ts).length < maxRequests
    · simp only [flushLoop, hcap, if_true, List.map_cons, List.cons_append]
      rw [ih]
    · simp [flushLoop, hcap]

/-- Claim C5: within one rate-limited destination the backlog is drained in
FIFO order — every flush pass sends a prefix of the queue starting at its
oldest element — and a payload admitted while the backlog is non-empty is
appended behind it (the sends of the `addEvent` call followed by what remains
queued always reproduce `queue ++ [payload]` in order, so the fresh payload
is never delivered before an earlier-queued one). -/
theorem rate_limited_fifo {α : Type} (cfg : WebhookConfig α) (rl : RateLimit)
    (hrl : cfg.rateLimit = some rl) :
    (∀ (now : Nat) (q : List α) (ts : List Nat),
      ((flushLoop rl.maxRequests rl.windowMs now q ts).2.2.map Send.payload) ++
        (flushLoop rl.maxRequests rl.windowMs now q ts).1 = q) ∧
    (∀ (now : Nat) (payload : α) (st : BatchState α),
      ((BatchHandler.addEvent cfg now payload st).2.map Send.payload) ++
        (BatchHandler.addEvent cfg now payload st).1.queue = st.queue ++ [payload]) := by
  refine ⟨fun now q ts => flushLoop_fifo rl.maxRequests rl.windowMs now q ts, ?_⟩
  intro now payload st
  unfold BatchHandler.addEvent
  rw [hrl]
  by_cases hcap : (pruneTimestamps rl.windowMs now st.requestTimestamps).length < rl.maxRequests
  · by_cases hq : st.queue.isEmpty
    · rw [List.isEmpty_iff] at hq
      simp [hcap, hq]
    · simp only [hcap, if_true, hq, Bool.false_eq_true, if_false]
      unfold BatchHandler.flush
      have hne : (st.queue ++ [payload]).isEmpty = false := by
        simp
      simp only [hne, Bool.false_eq_true, if_false]
      exact flushLoop_fifo rl.maxRequests rl.windowMs now (st.queue ++ [payload])
        (pruneTimestamps rl.windowMs now st.requestTimestamps)
  · simp [hcap]

theorem rate_limited_fifo_witness :
    ((BatchHandler.addEvent (α := Nat)
        { url := "https://example.com/hook",
          rateLimit := some { maxRequests := 1, windowMs := 60000 } } 5 3
        { queue := [1, 2], requestTimestamps := [] }).2.map Send.payload) ++
      (BatchHandler.addEvent (α := Nat)
        { url := "https://example.com/hook",
          rateLimit := some { maxRequests := 1, windowMs := 60000 } } 5 3
        { queue := [1, 2], requestTimestamps := [] }).1.queue = [1, 2] ++ [3] :=
  (rate_limited_fifo
      { url := "https://example.com/hook",
        rateLimit := some { maxRequests := 1, windowMs := 60000 } }
      { maxRequests := 1, windowMs := 60000 } rfl).2 5 3
    { queue := [1, 2], requestTimestamps := [] }

theorem filter_length_mono {β : Type} (l : List β) (p q : β → Bool)
    (h : ∀ a ∈ l, p a = true → q a = true) :
    (l.filter p).length ≤ (l.filter q).length := by
  induction l with
  | nil => simp
  | cons a l ih =>
    have ih' := ih (fun b hb hpb => h b (List.mem_cons_of_mem a hb) hpb)
    by_cases hpa : p a = true
    · have hqa := h a (List.mem_cons_self a l) hpa
      simp only [List.filter_cons, hpa, if_true, hqa, List.length_cons]
      omega
    · have hpa' : p a = false := by
        cases hp : p a
        · rfl
        · exact absurd hp hpa
      by_cases hqa : q a = true
      · simp only [List.filter_cons, hpa', Bool.false_eq_true, if_false, hqa, if_true,
          List.length_cons]
        omega
      · have hqa' : q a = false := by
          cases hq : q a
          · rfl
          · exact absurd hq hqa
        simp only [List.filter_cons, hpa', hqa', Bool.false_eq_true, if_false]
        exact ih'

theorem prune_prune (W t u : Nat) (hle : t ≤ u) (ts : List Nat) :
    pruneTimestamps W u (pruneTimestamps W t ts) = pruneTimestamps W u ts := by
  unfold pruneTimestamps
  rw [List.filter_filter]
  apply List.filter_congr
  intro a _
  by_cases h : u - a < W
  · have h2 : t - a < W := by omega
    simp [h, h2]
  · simp [h]

theorem prune_append (W u : Nat) (a b : List Nat) :
    pruneTimestamps W u (a ++ b) = pruneTimestamps W u a ++ pruneTimestamps W u b := by
  simp [pruneTimestamps]

theorem batchInv_mono (W tcur t : Nat) (log ts : List Nat) (h : BatchInv W tcur log ts)
    (ht : tcur ≤ t) : BatchInv W t log ts :=
  ⟨fun s hs => le_trans (h.1 s hs) ht, fun s hs => le_trans (h.2.1 s hs) ht,
   fun u hu => h.2.2 u (le_trans ht hu)⟩

theorem batchInv_prune (W tcur t : Nat) (log ts : List Nat) (h : BatchInv W tcur log ts)
    (ht : tcur ≤ t) : BatchInv W t log (pruneTimestamps W t ts) := by
  refine ⟨fun s hs => le_trans (h.1 s hs) ht, ?_, ?_⟩
  · intro s hs
    exact le_trans (h.2.1 s (List.mem_filter.mp hs).1) ht
  · intro u hu
    rw [h.2.2 u (le_trans ht hu), prune_prune W t u hu ts]

theorem batchInv_send (W maxR tcur t : Nat) (log ts : List Nat)
    (hinv : BatchInv W tcur log ts)
    (hgoal : ∀ T, windowCount W T log ≤ maxR)
    (ht : tcur ≤ t)
    (hcap : (pruneTimestamps W t ts).length < maxR) :
    BatchInv W t (log ++ [t]) (pruneTimestamps W t ts ++ [t]) ∧
    (∀ T, windowCount W T (log ++ [t]) ≤ maxR) := by
  constructor
  · refine ⟨?_, ?_, ?_⟩
    · intro s hs
      rcases List.mem_append.mp hs with h1 | h1
      · exact le_trans (hinv.1 s h1) ht
      · have : s = t := by simpa using h1
        omega
    · intro s hs
      rcases List.mem_append.mp hs with h1 | h1
      · exact le_trans (hinv.2.1 s (List.mem_filter.mp h1).1) ht
      · have : s = t := by simpa using h1
        omega
    · intro u hu
      rw [prune_append, prune_append, hinv.2.2 u (le_trans ht hu), prune_prune W t u hu ts]
  · intro T
    have hlog := hgoal T
    unfold windowCount at hlog ⊢
    rw [List.filter_append, List.length_append]
    by_cases hT : (decide (T < t + W) && decide (t ≤ T)) = true
    · have hsingle : (List.filter (fun s => decide (T < s + W) && decide (s ≤ T)) [t]).length
          = 1 := by
        simp only [List.filter_cons, hT, if_true, List.filter_nil, List.length_cons,
          List.length_nil]
      simp only [Bool.and_eq_true, decide_eq_true_eq] at hT
      have himp : ∀ a ∈ log, (decide (T < a + W) && decide (a ≤ T)) = true →
          (decide (t - a < W)) = true := by
        intro a ha hcond
        simp only [Bool.and_eq_true, decide_eq_true_eq] at hcond
        have haw := hinv.1 a ha
        simp only [decide_eq_true_eq]
        omega
      have hmono2 := filter_length_mono log
        (fun s => decide (T < s + W) && decide (s ≤ T)) (fun s => decide (t - s < W)) himp
      have heq : pruneTimestamps W t log = pruneTimestamps W t ts := hinv.2.2 t ht
      have hlen : (List.filter (fun s => decide (t - s < W)) log).length =
          (pruneTimestamps W t ts).length := by
        rw [← heq]
        rfl
      omega
    · have hsingle : (List.filter (fun s => decide (T < s + W) && decide (s ≤ T)) [t]).length
          = 0 := by
        have hT' : (decide (T < t + W) && decide (t ≤ T)) = false := by
          cases hb : (decide (T < t + W) && decide (t ≤ T))
          · rfl
          · exact absurd hb hT
        simp only [List.filter_cons, hT', Bool.false_eq_true, if_false, List.filter_nil,
          List.length_nil]
      omega

theorem flushLoop_preserves {α : Type} (maxR W t : Nat) :
    ∀ (q : List α) (log ts : List Nat),
      BatchInv W t log ts →
      (∀ T, windowCount W T log ≤ maxR) →
      BatchInv W t (log ++ ((flushLoop maxR W t q ts).2.2.map Send.time))
          (flushLoop maxR W t q ts).2.1 ∧
      (∀ T, windowCount W T (log ++ ((flushLoop maxR W t q ts).2.2.map Send.time)) ≤ maxR) := by
  intro q
  induction q with
  | nil =>
    intro log ts hinv hgoal
    simpa [flushLoop] using ⟨hinv, hgoal⟩
  | cons p rest ih =>
    intro log ts hinv hgoal
    by_cases hcap : (pruneTimestamps W t ts).length < maxR
    · have hsend := batchInv_send W maxR t t log ts hinv hgoal le_rfl hcap
      have hih := ih (log ++ [t]) (pruneTimestamps W t ts ++ [t]) hsend.1 hsend.2
      simp only [flushLoop, hcap, if_true, List.map_cons, List.cons_append]
      constructor
      · have h1 :
            log ++ t ::
              ((flushLoop maxR W t rest (pruneTimestamps W t ts ++ [t])).2.2.map Send.time) =
            (log ++ [t]) ++
              ((flushLoop maxR W t rest (pruneTimestamps W t ts ++ [t])).2.2.map Send.time) := by
          simp
        rw [h1]
        exact hih.1
      · intro T
        have h1 :
            log ++ t ::
              ((flushLoop maxR W t rest (pruneTimestamps W t ts ++ [t])).2.2.map Send.time) =
            (log ++ [t]) ++
              ((flushLoop maxR W t rest (pruneTimestamps W t ts ++ [t])).2.2.map Send.time) := by
          simp
        rw [h1]
        exact hih.2 T
    · simp only [flushLoop, hcap, if_false, List.map_nil, List.append_nil]
      exact ⟨batchInv_prune W t t log ts hinv le_rfl, hgoal⟩

theorem applyBatchOp_preserves {α : Type} (cfg : WebhookConfig α) (rl : RateLimit)
    (hrl : cfg.rateLimit = some rl) (op : BatchOp α) (st : BatchState α) (log : List Nat)
    (tcur : Nat)
    (hinv : BatchInv rl.windowMs tcur log st.requestTimestamps)
    (hgoal : ∀ T, windowCount rl.windowMs T log ≤ rl.maxRequests)
    (ht : tcur ≤ op.time) :
    BatchInv rl.windowMs op.time
        (log ++ ((applyBatchOp cfg st op).2.map Send.time))
        (applyBatchOp cfg st op).1.requestTimestamps ∧
    (∀ T, windowCount rl.windowMs T
        (log ++ ((applyBatchOp cfg st op).2.map Send.time)) ≤ rl.maxRequests) := by
  cases op with
  | add t p =>
    have ht' : tcur ≤ t := ht
    simp only [applyBatchOp]
    unfold BatchHandler.addEvent
    rw [hrl]
    by_cases hcap :
        (pruneTimestamps rl.windowMs t st.requestTimestamps).length < rl.maxRequests
    · by_cases hq : st.queue.isEmpty
      · have hsend := batchInv_send rl.windowMs rl.maxRequests tcur t log
          st.requestTimestamps hinv hgoal ht' hcap
        simpa [hcap, hq] using hsend
      · simp only [hcap, if_true, hq, Bool.false_eq_true, if_false]
        unfold BatchHandler.flush
        have hne : (st.queue ++ [p]).isEmpty = false := by simp
        simp only [hne, Bool.false_eq_true, if_false]
        exact flushLoop_preserves rl.maxRequests rl.windowMs t (st.queue ++ [p]) log
          (pruneTimestamps rl.windowMs t st.requestTimestamps)
          (batchInv_prune rl.windowMs tcur t log st.requestTimestamps hinv ht') hgoal
    · simpa [hcap] using
        ⟨batchInv_prune rl.windowMs tcur t log st.requestTimestamps hinv ht', hgoal⟩
  | flushTimer t =>
    have ht' : tcur ≤ t := ht
    simp only [applyBatchOp]
    rw [hrl]
    unfold BatchHandler.flush
    by_cases hq : st.queue.isEmpty
    · simpa [hq] using
        ⟨batchInv_mono rl.windowMs tcur t log st.requestTimestamps hinv ht', hgoal⟩
    · simp only [hq, Bool.false_eq_true, if_false]
      exact flushLoop_preserves rl.maxRequests rl.windowMs t st.queue log
        st.requestTimestamps
        (batchInv_mono rl.windowMs tcur t log st.requestTimestamps hinv ht') hgoal

theorem runBatchOps_bound {α : Type} (cfg : WebhookConfig α) (rl : RateLimit)
    (hrl : cfg.rateLimit = some rl) :
    ∀ (ops : List (BatchOp α)) (st : BatchState α) (log : List Nat) (tcur : Nat),
      BatchInv rl.windowMs tcur log st.requestTimestamps →
      (∀ T, windowCount rl.windowMs T log ≤ rl.maxRequests) →
      List.Chain' (· ≤ ·) (tcur :: ops.map BatchOp.time) →
      ∀ T, windowCount rl.windowMs T
        (log ++ ((runBatchOps cfg st ops).2.map Send.time)) ≤ rl.maxRequests := by
  intro ops
  induction ops with
  | nil =>
    intro st log tcur _ hgoal _ T
    simpa [runBatchOps] using hgoal T
  | cons op rest ih =>
    intro st log tcur hinv hgoal hchain T
    simp only [List.map_cons] at hchain
    rw [List.chain'_cons] at hchain
    have happ := applyBatchOp_preserves cfg rl hrl op st log tcur hinv hgoal hchain.1
    have hih := ih (applyBatchOp cfg st op).1
      (log ++ ((applyBatchOp cfg st op).2.map Send.time)) op.time happ.1 happ.2 hchain.2 T
    simpa [runBatchOps, List.map_append, List.append_assoc] using hih

/-- Claim C4: for a destination configured with
`rateLimit = {maxRequests, windowMs}`, along every sequence of
`addEvent`/`flush` steps whose `Date.now()` readings never decrease, the
number of sends whose timestamps lie inside any trailing `windowMs` interval
never exceeds `maxRequests`: both the immediate-send branch of `addEvent` and
each flush-loop iteration send only after pruning and re-checking the window
count. -/
theorem rate_window_never_exceeds_max {α : Type} (cfg : WebhookConfig α) (rl : RateLimit)
    (hrl : cfg.rateLimit = some rl) (ops : List (BatchOp α)) (hmono : timesMonotone 0 ops)
    (T : Nat) :
    windowCount rl.windowMs T ((runBatchOps cfg {} ops).2.map Send.time) ≤ rl.maxRequests := by
  have hinv0 : BatchInv rl.windowMs 0 [] ({} : BatchState α).requestTimestamps :=
    ⟨by simp, by simp, fun t _ => rfl⟩
  have hgoal0 : ∀ T, windowCount rl.windowMs T [] ≤ rl.maxRequests := by
    intro T
    simp [windowCount]
  have h := runBatchOps_bound cfg rl hrl ops {} [] 0 hinv0 hgoal0 hmono T
  simpa using h

theorem rate_window_never_exceeds_max_witness :
    windowCount 1000 1000
      ((runBatchOps (α := Nat)
          { url := "https://example.com/hook",
            rateLimit := some { maxRequests := 1, windowMs := 1000 } } {}
          [BatchOp.add 0 10, BatchOp.add 0 20, BatchOp.flushTimer 1000]).2.map Send.time)
      ≤ 1 :=
  rate_window_never_exceeds_max
    { url := "https://example.com/hook",
      rateLimit := some { maxRequests := 1, windowMs := 1000 } }
    { maxRequests := 1, windowMs := 1000 } rfl
    [BatchOp.add 0 10, BatchOp.add 0 20, BatchOp.flushTimer 1000]
    (by unfold timesMonotone; simp [List.chain'_cons, BatchOp.time]) 1000

theorem mapGet_mapSet_self {β : Type} (k : String) (v : β) (l : List (String × β)) :
    mapGet k (mapSet k v l) = some v := by
  induction l with
  | nil => simp [mapSet, mapGet]
  | cons a rest ih =>
    obtain ⟨ak, av⟩ := a
    by_cases h : ak = k
    · simp [mapSet, mapGet, h]
    · simp only [mapSet, mapGet, h, if_false]
      exact ih

theorem mapGet_mapSet_ne {β : Type} (k k' : String) (v : β) (l : List (String × β))
    (hne : k' ≠ k) : mapGet k' (mapSet k v l) = mapGet k' l := by
  have hne' : ¬ k = k' := fun h => hne h.symm
  induction l with
  | nil =>
    simp only [mapSet, mapGet]
    rw [if_neg hne']
  | cons a rest ih =>
    obtain ⟨ak, av⟩ := a
    by_cases h : ak = k
    · simp only [mapSet, h, if_true, mapGet, hne', if_false]
    · simp only [mapSet, h, if_false, mapGet]
      by_cases h2 : ak = k'
      · simp [h2]
      · simp only [h2, if_false]
        exact ih

theorem mapGet_mapDelete_ne {β : Type} (k k' : String) (l : List (String × β))
    (hne : k' ≠ k) : mapGet k' (mapDelete k l) = mapGet k' l := by
  induction l with
  | nil => simp [mapDelete]
  | cons a rest ih =>
    obtain ⟨ak, av⟩ := a
    by_cases h : ak = k
    · simp only [mapDelete, h, if_true, mapGet]
      rw [if_neg (fun hh => hne hh.symm)]
    · simp only [mapDelete, h, if_false, mapGet]
      by_cases h2 : ak = k'
      · simp [h2]
      · simp only [h2, if_false]
        exact ih

theorem mapGet_eq_none_of_not_mem_keys {β : Type} (k : String) (l : List (String × β))
    (h : k ∉ l.map Prod.fst) : mapGet k l = none := by
  induction l with
  | nil => rfl
  | cons a rest ih =>
    obtain ⟨ak, av⟩ := a
    simp only [List.map_cons, List.mem_cons, not_or] at h
    simp only [mapGet]
    rw [if_neg (fun hh => h.1 hh.symm)]
    exact ih h.2

theorem mapGet_mapDelete_self_of_nodup {β : Type} (k : String) (l : List (String × β))
    (h : (l.map Prod.fst).Nodup) : mapGet k (mapDelete k l) = none := by
  induction l with
  | nil => rfl
  | cons a rest ih =>
    obtain ⟨ak, av⟩ := a
    simp only [List.map_cons, List.nodup_cons] at h
    by_cases hk : ak = k
    · simp only [mapDelete, hk, if_true]
      exact mapGet_eq_none_of_not_mem_keys k rest (hk ▸ h.1)
    · simp only [mapDelete, hk, if_false, mapGet]
      exact ih h.2

theorem keys_mapSet {β : Type} (k : String) (v : β) (l : List (String × β)) :
    (mapSet k v l).map Prod.fst =
      if k ∈ l.map Prod.fst then l.map Prod.fst else l.map Prod.fst ++ [k] := by
  induction l with
  | nil => simp [mapSet]
  | cons a rest ih =>
    obtain ⟨ak, av⟩ := a
    by_cases h : ak = k
    · simp [mapSet, h]
    · simp only [mapSet, h, if_false, List.map_cons, ih, List.mem_cons]
      have hka : ¬ k = ak := fun hh => h hh.symm
      by_cases h2 : k ∈ rest.map Prod.fst
      · simp [h2, hka]
      · simp [h2, hka]

theorem nodup_keys_mapSet {β : Type} (k : String) (v : β) (l : List (String × β))
    (h : (l.map Prod.fst).Nodup) : ((mapSet k v l).map Prod.fst).Nodup := by
  rw [keys_mapSet]
  by_cases hm : k ∈ l.map Prod.fst
  · simpa [hm] using h
  · simp only [hm, if_false]
    simpa [List.nodup_append, hm] using h

theorem mapGet_append_single_ne {β : Type} (k k' : String) (v : β) (l : List (String × β))
    (hne : k' ≠ k) : mapGet k' (l ++ [(k, v)]) = mapGet k' l := by
  induction l with
  | nil =>
    simp only [List.nil_append, mapGet]
    rw [if_neg (fun h => hne h.symm)]
  | cons a rest ih =>
    obtain ⟨ak, av⟩ := a
    simp only [List.cons_append, mapGet]
    by_cases h : ak = k'
    · simp [h]
    · simp only [h, if_false]
      exact ih

theorem mapGet_append_single_self_of_none {β : Type} (k : String) (v : β)
    (l : List (String × β)) (h : mapGet k l = none) :
    mapGet k (l ++ [(k, v)]) = some v := by
  induction l with
  | nil => simp [mapGet]
  | cons a rest ih =>
    obtain ⟨ak, av⟩ := a
    simp only [mapGet] at h
    by_cases ha : ak = k
    · rw [if_pos ha] at h
      cases h
    · rw [if_neg ha] at h
      simp only [List.cons_append, mapGet, ha, if_false]
      exact ih h

theorem handleMessagePartUpdated_unregistered (part : PartInfo) (st : MiddlewareState)
    (hmid : (part.messageID.getD "") ∉
      ((mapGet (part.sessionID.getD "") st.sessions).getD {}).assistantMessageIds) :
    ∀ sid, partsOf sid (handleMessagePartUpdated part st) = partsOf sid st := by
  intro sid
  unfold handleMessagePartUpdated
  by_cases hb1 : (part.type == "text") = true
  · simp only [hb1, Bool.not_true, Bool.false_eq_true, if_false]
    by_cases hb2 : (jsTruthy part.sessionID && jsTruthy part.messageID) = true
    · simp only [hb2, Bool.not_true, Bool.false_eq_true, if_false]
      unfold getOrInitSession
      cases hg : mapGet (part.sessionID.getD "") st.sessions with
      | some s0 =>
        rw [hg] at hmid
        simp only [hg, Option.getD_some] at hmid ⊢
        rw [if_neg hmid]
      | none =>
        rw [hg] at hmid
        simp only [hg]
        have hget := mapGet_append_single_self_of_none (part.sessionID.getD "")
          ({} : SessionState) st.sessions hg
        simp only [hget, Option.getD_some]
        rw [if_neg (by simp : ¬ (part.messageID.getD "") ∈
          ({} : SessionState).assistantMessageIds)]
        unfold partsOf
        by_cases h4 : sid = part.sessionID.getD ""
        · subst h4
          rw [hget, hg]
        · rw [mapGet_append_single_ne _ _ _ _ h4]
    · have hb2' : (jsTruthy part.sessionID && jsTruthy part.messageID) = false :=
        Bool.of_not_eq_true hb2
      simp [hb2']
  · have hb1' : (part.type == "text") = false := Bool.of_not_eq_true hb1
    simp [hb1']

theorem handleMessagePartUpdated_other_session (part : PartInfo) (st : MiddlewareState)
    (sid : String) (hne : sid ≠ part.sessionID.getD "") :
    partsOf sid (handleMessagePartUpdated part st) = partsOf sid st := by
  unfold handleMessagePartUpdated
  by_cases hb1 : (part.type == "text") = true
  · simp only [hb1, Bool.not_true, Bool.false_eq_true, if_false]
    by_cases hb2 : (jsTruthy part.sessionID && jsTruthy part.messageID) = true
    · simp only [hb2, Bool.not_true, Bool.false_eq_true, if_false]
      unfold getOrInitSession
      cases hg : mapGet (part.sessionID.getD "") st.sessions with
      | some s0 =>
        simp only [hg, Option.getD_some]
        by_cases hmem : (part.messageID.getD "") ∈ s0.assistantMessageIds
        · rw [if_pos hmem]
          unfold partsOf
          rw [mapGet_mapSet_ne _ _ _ _ hne]
        · rw [if_neg hmem]
      | none =>
        simp only [hg]
        have hget := mapGet_append_single_self_of_none (part.sessionID.getD "")
          ({} : SessionState) st.sessions hg
        simp only [hget, Option.getD_some]
        rw [if_neg (by simp : ¬ (part.messageID.getD "") ∈
          ({} : SessionState).assistantMessageIds)]
        unfold partsOf
        rw [mapGet_append_single_ne _ _ _ _ hne]
    · have hb2' : (jsTruthy part.sessionID && jsTruthy part.messageID) = false :=
        Bool.of_not_eq_true hb2
      simp [hb2']
  · have hb1' : (part.type == "text") = false := Bool.of_not_eq_true hb1
    simp [hb1']

theorem handleMessageUpdated_partsOf (info : MsgInfo) (st : MiddlewareState) (sid : String) :
    partsOf sid (handleMessageUpdated info st) = partsOf sid st := by
  unfold handleMessageUpdated
  by_cases hb1 : (info.role == "assistant") = true
  · simp only [hb1, Bool.not_true, Bool.false_eq_true, if_false]
    by_cases hb2 : (jsTruthy info.sessionID && jsTruthy info.id) = true
    · simp only [hb2, Bool.not_true, Bool.false_eq_true, if_false]
      unfold getOrInitSession
      cases hg : mapGet (info.sessionID.getD "") st.sessions with
      | some s0 =>
        simp only [hg, Option.getD_some]
        unfold partsOf
        by_cases h4 : sid = info.sessionID.getD ""
        · subst h4
          rw [mapGet_mapSet_self, hg]
        · rw [mapGet_mapSet_ne _ _ _ _ h4]
      | none =>
        simp only [hg]
        have hget := mapGet_append_single_self_of_none (info.sessionID.getD "")
          ({} : SessionState) st.sessions hg
        simp only [hget, Option.getD_some]
        unfold partsOf
        by_cases h4 : sid = info.sessionID.getD ""
        · subst h4
          rw [mapGet_mapSet_self, hg]
        · rw [mapGet_mapSet_ne _ _ _ _ h4, mapGet_append_single_ne _ _ _ _ h4]
    · have hb2' : (jsTruthy info.sessionID && jsTruthy info.id) = false :=
        Bool.of_not_eq_true hb2
      simp [hb2']
  · have hb1' : (info.role == "assistant") = false := Bool.of_not_eq_true hb1
    simp [hb1']

theorem handleSessionIdle_partsOf_empty (title : String → String) (nowTs : String)
    (sidOpt : Option String) (st : MiddlewareState) (sid : String)
    (hempty : partsOf sid st = []) :
    partsOf sid (handleSessionIdle title nowTs sidOpt st).1 = [] := by
  unfold handleSessionIdle
  by_cases hb : jsTruthy sidOpt = true
  · simp only [hb, Bool.not_true, Bool.false_eq_true, if_false]
    cases hg : mapGet (sidOpt.getD "") st.sessions with
    | none => simpa [hg] using hempty
    | some s =>
      simp only [hg]
      by_cases hp : s.parts.length = 0
      · simpa [hp] using hempty
      · simp only [hp, if_false]
        by_cases h4 : sid = sidOpt.getD ""
        · subst h4
          unfold partsOf at hempty
          rw [hg] at hempty
          have hparts : s.parts = [] := by simpa using hempty
          exact absurd (by simp [hparts]) hp
        · unfold partsOf
          simp only
          rw [mapGet_mapDelete_ne _ _ _ h4]
          exact hempty
  · have hb' : jsTruthy sidOpt = false := Bool.of_not_eq_true hb
    simpa [hb'] using hempty

theorem handleSessionIdle_none_of_empty (title : String → String) (nowTs : String)
    (sid : String) (st : MiddlewareState) (hempty : partsOf sid st = []) :
    (handleSessionIdle title nowTs (some sid) st).2 = none := by
  unfold handleSessionIdle
  by_cases hb : jsTruthy (some sid) = true
  · simp only [hb, Bool.not_true, Bool.false_eq_true, if_false]
    have hgd : (some sid).getD "" = sid := rfl
    rw [hgd]
    cases hg : mapGet sid st.sessions with
    | none => simp
    | some s =>
      unfold partsOf at hempty
      rw [hg] at hempty
      have hparts : s.parts = [] := by simpa using hempty
      simp [hg, hparts]
  · have hb' : jsTruthy (some sid) = false := Bool.of_not_eq_true hb
    simp [hb']

theorem partsOf_step_empty (title : String → String) (nowTs : String) (sid : String)
    (ev : OpencodeEvent) (st : MiddlewareState)
    (hempty : partsOf sid st = [])
    (hok : ∀ part, ev = OpencodeEvent.messagePartUpdated part →
      partTargets sid part = true →
      ((mapGet sid st.sessions).getD {}).assistantMessageIds.contains
        (part.messageID.getD "") = false) :
    partsOf sid (Middleware.handleEvent title nowTs ev st).1 = [] := by
  cases ev with
  | messagePartUpdated part =>
    show partsOf sid (handleMessagePartUpdated part st) = []
    by_cases htarget : partTargets sid part = true
    · have hc := hok part rfl htarget
      have hsid : part.sessionID.getD "" = sid := by
        unfold partTargets at htarget
        simp only [Bool.and_eq_true, beq_iff_eq] at htarget
        exact htarget.2
      have hmid : (part.messageID.getD "") ∉
          ((mapGet (part.sessionID.getD "") st.sessions).getD {}).assistantMessageIds := by
        rw [hsid]
        simpa using hc
      rw [handleMessagePartUpdated_unregistered part st hmid sid]
      exact hempty
    · by_cases hb1 : (part.type == "text") = true
      · by_cases hb2 : (jsTruthy part.sessionID && jsTruthy part.messageID) = true
        · have hb4 : ¬ sid = part.sessionID.getD "" := by
            intro h4
            apply htarget
            unfold partTargets
            simp only [Bool.and_eq_true, beq_iff_eq]
            simp only [Bool.and_eq_true] at hb2
            exact ⟨⟨⟨by simpa using hb1, hb2.1⟩, hb2.2⟩, h4.symm⟩
          rw [handleMessagePartUpdated_other_session part st sid hb4]
          exact hempty
        · have hb2' : (jsTruthy part.sessionID && jsTruthy part.messageID) = false :=
            Bool.of_not_eq_true hb2
          unfold handleMessagePartUpdated
          simpa [hb1, hb2'] using hempty
      · have hb1' : (part.type == "text") = false := Bool.of_not_eq_true hb1
        unfold handleMessagePartUpdated
        simpa [hb1'] using hempty
  | messageUpdated info =>
    show partsOf sid (handleMessageUpdated info st) = []
    rw [handleMessageUpdated_partsOf]
    exact hempty
  | sessionIdle sidOpt =>
    exact handleSessionIdle_partsOf_empty title nowTs sidOpt st sid hempty
  | other =>
    exact hempty

theorem runEvents_parts_empty (title : String → String) (nowTs : String) (sid : String) :
    ∀ (evs : List OpencodeEvent) (st : MiddlewareState),
      allPartsUnregistered title nowTs sid st evs = true →
      partsOf sid st = [] →
      partsOf sid (runEvents title nowTs st evs).1 = [] := by
  intro evs
  induction evs with
  | nil =>
    intro st _ hempty
    simpa [runEvents] using hempty
  | cons ev rest ih =>
    intro st hall hempty
    simp only [allPartsUnregistered, Bool.and_eq_true] at hall
    have hall' := hall
    have hok : ∀ part, ev = OpencodeEvent.messagePartUpdated part →
        partTargets sid part = true →
        ((mapGet sid st.sessions).getD {}).assistantMessageIds.contains
          (part.messageID.getD "") = false := by
      intro part hev htarget
      subst hev
      have h1 := hall'.1
      simp only [htarget, if_true] at h1
      simpa using h1
    have hstep := partsOf_step_empty title nowTs sid ev st hempty hok
    show partsOf sid (runEvents title nowTs
      (Middleware.handleEvent title nowTs ev st).1 rest).1 = []
    exact ih (Middleware.handleEvent title nowTs ev st).1 hall'.2 hstep

/-- Claim C9: the session accumulator's `parts` only ever receives text from
message-part events whose `messageId` was registered as an assistant message:
a part event whose id is unregistered leaves every session's part map exactly
as it was; consequently, a run from the initial state in which every part
event for a session carries an id unregistered at the moment it is processed
leaves that session's parts empty, and a subsequent `session.idle` emits no
completion. -/
theorem parts_only_from_assistant (title : String → String) (nowTs : String) :
    (∀ (part : PartInfo) (st : MiddlewareState),
      (part.messageID.getD "") ∉
          ((mapGet (part.sessionID.getD "") st.sessions).getD {}).assistantMessageIds →
      ∀ sid, partsOf sid (handleMessagePartUpdated part st) = partsOf sid st) ∧
    (∀ (sid : String) (evs : List OpencodeEvent),
      allPartsUnregistered title nowTs sid {} evs = true →
      partsOf sid (runEvents title nowTs {} evs).1 = [] ∧
      (handleSessionIdle title nowTs (some sid) (runEvents title nowTs {} evs).1).2
        = none) := by
  constructor
  · intro part st hmid sid
    exact handleMessagePartUpdated_unregistered part st hmid sid
  · intro sid evs hall
    have hinit : partsOf sid ({} : MiddlewareState) = [] := rfl
    have hfinal := runEvents_parts_empty title nowTs sid evs {} hall hinit
    exact ⟨hfinal, handleSessionIdle_none_of_empty title nowTs sid _ hfinal⟩

theorem parts_only_from_assistant_witness :
    partsOf "s1"
        (handleMessagePartUpdated
          { type := "text", sessionID := some "s1", messageID := some "m1",
            id := "p1", text := "hello" } {}) = partsOf "s1" {} ∧
    (partsOf "s1" (runEvents (fun s => s) "2025-01-01"
        {} [OpencodeEvent.messagePartUpdated
              { type := "text", sessionID := some "s1", messageID := some "m1",
                id := "p1", text := "hello" },
            OpencodeEvent.sessionIdle (some "s1")]).1 = [] ∧
      (handleSessionIdle (fun s => s) "2025-01-01" (some "s1")
        (runEvents (fun s => s) "2025-01-01"
          {} [OpencodeEvent.messagePartUpdated
                { type := "text", sessionID := some "s1", messageID := some "m1",
                  id := "p1", text := "hello" },
              OpencodeEvent.sessionIdle (some "s1")]).1).2 = none) :=
  ⟨(parts_only_from_assistant (fun s => s) "2025-01-01").1
      { type := "text", sessionID := some "s1", messageID := some "m1",
        id := "p1", text := "hello" } {} (by decide) "s1",
    (parts_only_from_assistant (fun s => s) "2025-01-01").2 "s1"
      [OpencodeEvent.messagePartUpdated
          { type := "text", sessionID := some "s1", messageID := some "m1",
            id := "p1", text := "hello" },
        OpencodeEvent.sessionIdle (some "s1")] (by decide)⟩

theorem jsTruthy_getD_ne (o : Option String) (h : jsTruthy o = true) : ¬ o.getD "" = "" := by
  cases o with
  | none => simp [jsTruthy] at h
  | some s =>
    simp only [jsTruthy] at h
    simp only [Option.getD_some]
    intro hc
    rw [hc] at h
    simp at h

theorem not_mem_keys_of_mapGet_none {β : Type} (k : String) (l : List (String × β))
    (h : mapGet k l = none) : k ∉ l.map Prod.fst := by
  induction l with
  | nil => simp
  | cons a rest ih =>
    obtain ⟨ak, av⟩ := a
    simp only [mapGet] at h
    by_cases ha : ak = k
    · rw [if_pos ha] at h
      cases h
    · rw [if_neg ha] at h
      simp only [List.map_cons, List.mem_cons, not_or]
      exact ⟨fun hh => ha hh.symm, ih h⟩

theorem handleSessionIdle_payload_sessionId (title : String → String) (nowTs : String)
    (s : String) (base : MiddlewareState) (p : AgentCompletedPayload)
    (h : (handleSessionIdle title nowTs (some s) base).2 = some p) : p.sessionId = s := by
  unfold handleSessionIdle at h
  by_cases hb : jsTruthy (some s) = true
  · simp only [hb, Bool.not_true, Bool.false_eq_true, if_false] at h
    cases hg : mapGet ((some s).getD "") base.sessions with
    | none =>
      simp only [hg] at h
      cases h
    | some ss =>
      simp only [hg] at h
      by_cases hp : ss.parts.length = 0
      · rw [if_pos hp] at h
        cases h
      · rw [if_neg hp] at h
        have := congrArg (fun o => Option.getD o p) h
        simp only [Option.getD_some] at this
        rw [← this]
  · have hb' : jsTruthy (some s) = false := Bool.of_not_eq_true hb
    rw [hb'] at h
    simp at h

theorem fireDue_sessionId_ne (title : String → String) (nowTs : String) (t : Nat)
    (sid : String) :
    ∀ (pending : List (String × Nat)) (base : MiddlewareState),
      sid ∉ pending.map Prod.fst →
      ∀ p ∈ (fireDue title nowTs t pending base).2.2, p.sessionId ≠ sid := by
  intro pending
  induction pending with
  | nil =>
    intro base _ p hp
    simp [fireDue] at hp
  | cons a rest ih =>
    obtain ⟨s', ft⟩ := a
    intro base hmem p hp
    simp only [List.map_cons, List.mem_cons, not_or] at hmem
    by_cases hdue : ft ≤ t
    · simp only [fireDue, hdue, if_true] at hp
      rcases List.mem_append.mp hp with h1 | h1
      · cases hh : (handleSessionIdle title nowTs (some s') base).2 with
        | none =>
          rw [hh] at h1
          simp at h1
        | some q =>
          rw [hh] at h1
          simp only [Option.toList_some, List.mem_singleton] at h1
          subst h1
          rw [handleSessionIdle_payload_sessionId title nowTs s' base p hh]
          exact fun hc => hmem.1 hc.symm
      · exact ih _ hmem.2 p h1
    · simp only [fireDue, hdue, if_false] at hp
      exact ih _ hmem.2 p hp

/-- Claim C2 (settled against the spec-modelled debounce; the timer-based
implementation is absent from src/, only its `idleDelaySecs` declaration and
tests are present): with a non-zero `idleDelaySecs`, a "session idle" event
never invokes the completion callback at once; and when a "message updated"
or "message-part updated" event for the same session arrives before the
timer fires, the pending emission is cancelled — the session has no pending
timer left and no later timer firing ever emits for it — while the
accumulated middleware state is retained (the activity is folded into the
state exactly as usual, nothing is cleared). -/
theorem idle_delay_debounce (idleDelaySecs : Nat) (title : String → String) (nowTs : String)
    (hpos : 0 < idleDelaySecs) :
    (∀ (t : Nat) (sid : Option String) (st : DebounceState),
      (debounceStep idleDelaySecs title nowTs t (OpencodeEvent.sessionIdle sid) st).2
        = []) ∧
    (∀ (t t' : Nat) (sid : String) (ev : OpencodeEvent) (st : DebounceState),
      (st.pending.map Prod.fst).Nodup →
      activitySession ev = some sid →
      (debounceStep idleDelaySecs title nowTs t' ev
          (debounceStep idleDelaySecs title nowTs t
            (OpencodeEvent.sessionIdle (some sid)) st).1).2 = [] ∧
      mapGet sid
        (debounceStep idleDelaySecs title nowTs t' ev
          (debounceStep idleDelaySecs title nowTs t
            (OpencodeEvent.sessionIdle (some sid)) st).1).1.pending = none ∧
      (debounceStep idleDelaySecs title nowTs t' ev
          (debounceStep idleDelaySecs title nowTs t
            (OpencodeEvent.sessionIdle (some sid)) st).1).1.base =
        (Middleware.handleEvent title nowTs ev st.base).1 ∧
      (∀ (t2 : Nat) (p : AgentCompletedPayload),
        p ∈ (debounceTick title nowTs t2
          (debounceStep idleDelaySecs title nowTs t' ev
            (debounceStep idleDelaySecs title nowTs t
              (OpencodeEvent.sessionIdle (some sid)) st).1).1).2 →
        p.sessionId ≠ sid)) := by
  have hd0 : ¬ idleDelaySecs = 0 := by omega
  constructor
  · intro t sid st
    simp only [debounceStep, hd0, if_false]
    by_cases hb : jsTruthy sid = true
    · simp [hb]
    · simp [Bool.of_not_eq_true hb]
  · intro t t' sid ev st hnd hact
    have hsidne : ¬ sid = "" := by
      cases ev with
      | messagePartUpdated part =>
        simp only [activitySession] at hact
        by_cases hb : jsTruthy part.sessionID = true
        · rw [if_pos hb] at hact
          rw [Option.some_inj] at hact
          rw [← hact]
          exact jsTruthy_getD_ne part.sessionID hb
        · rw [if_neg hb] at hact
          cases hact
      | messageUpdated info =>
        simp only [activitySession] at hact
        by_cases hb : jsTruthy info.sessionID = true
        · rw [if_pos hb] at hact
          rw [Option.some_inj] at hact
          rw [← hact]
          exact jsTruthy_getD_ne info.sessionID hb
        · rw [if_neg hb] at hact
          cases hact
      | sessionIdle s => simp [activitySession] at hact
      | other => simp [activitySession] at hact
    have htruthy : jsTruthy (some sid) = true := by
      simp [jsTruthy, hsidne]
    have hst1 : (debounceStep idleDelaySecs title nowTs t
        (OpencodeEvent.sessionIdle (some sid)) st).1 =
        { st with pending := (mapSet ((some sid).getD "")
            (t + idleDelaySecs * 1000) st.pending) } := by
      simp only [debounceStep, hd0, if_false, htruthy, if_true]
    have hnotidle : ∀ (st2 : DebounceState),
        debounceStep idleDelaySecs title nowTs t' ev st2 =
          ({ base := (Middleware.handleEvent title nowTs ev st2.base).1,
             pending := cancelPendingFor ev st2.pending },
           (Middleware.handleEvent title nowTs ev st2.base).2.toList) := by
      intro st2
      cases ev with
      | messagePartUpdated part => rfl
      | messageUpdated info => rfl
      | sessionIdle s => simp [activitySession] at hact
      | other => simp [activitySession] at hact
    have hcancel : ∀ (pend : List (String × Nat)), cancelPendingFor ev pend =
        mapDelete sid pend := by
      intro pend
      unfold cancelPendingFor
      rw [hact]
    have hnoemit : (Middleware.handleEvent title nowTs ev
        ({ st with pending := (mapSet ((some sid).getD "")
            (t + idleDelaySecs * 1000) st.pending) } : DebounceState).base).2 = none := by
      cases ev with
      | messagePartUpdated part => rfl
      | messageUpdated info => rfl
      | sessionIdle s => simp [activitySession] at hact
      | other => simp [activitySession] at hact
    rw [hst1, hnotidle]
    have hgetnone : mapGet sid (cancelPendingFor ev
        (mapSet ((some sid).getD "") (t + idleDelaySecs * 1000) st.pending)) = none := by
      rw [hcancel]
      exact mapGet_mapDelete_self_of_nodup sid _
        (nodup_keys_mapSet ((some sid).getD "") _ st.pending hnd)
    refine ⟨by rw [hnoemit]; rfl, hgetnone, rfl, ?_⟩
    intro t2 p hp
    unfold debounceTick at hp
    exact fireDue_sessionId_ne title nowTs t2 sid _ _
      (not_mem_keys_of_mapGet_none sid _ hgetnone) p hp

theorem idle_delay_debounce_witness :
    (debounceStep 5 (fun s => s) "2025-01-01" 0
      (OpencodeEvent.sessionIdle (some "s1")) {}).2 = [] ∧
    mapGet "s1"
      (debounceStep 5 (fun s => s) "2025-01-01" 2000
        (OpencodeEvent.messagePartUpdated
          { type := "text", sessionID := some "s1", messageID := some "m1",
            id := "p2", text := "more" })
        (debounceStep 5 (fun s => s) "2025-01-01" 0
          (OpencodeEvent.sessionIdle (some "s1")) {}).1).1.pending = none :=
  ⟨(idle_delay_debounce 5 (fun s => s) "2025-01-01" (by decide)).1 0 (some "s1") {},
   ((idle_delay_debounce 5 (fun s => s) "2025-01-01" (by decide)).2 0 2000 "s1"
      (OpencodeEvent.messagePartUpdated
        { type := "text", sessionID := some "s1", messageID := some "m1",
          id := "p2", text := "more" }) {} (by simp) (by decide)).2.1⟩

end OpencodeWebhooks
